import Mathlib

/-!
Verification of `create_wireframe` in `src/iaret/tools/generate_holo.py`.

The pipeline is embedded shallowly: PIL/numpy images become explicit
width/height/pixel-function records, 8-bit samples become `Nat`, the numpy
float32/float64 scalings become exact rational (or equivalent natural-number)
arithmetic with truncation toward zero where the code casts to `uint8`, and
the PIL library primitives the script calls (`convert "L"`, `Image.filter`
with a convolution kernel, `ImageFilter.FIND_EDGES`, `ImageFilter.CONTOUR`,
`Image.alpha_composite`) are translated from their C implementations
(`convert.c`, `Filter.c`, `AlphaComposite.c`).  The one floating-point
primitive with no exact integer translation, `ImageFilter.GaussianBlur`, is
modelled by a normalized radius-2 binomial kernel with replicate-clamped
borders (see `blur_chan`).
-/

set_option maxRecDepth 200000

namespace GenerateHolo

/-- A raster image: width, height and a total pixel function `pix row col`.
Only values at `row < height`, `col < width` are meaningful; every stage
below reads out-of-range coordinates through clamping, mirroring the fact
that the Python code never indexes outside the array bounds. -/
structure Image (α : Type) where
  width : Nat
  height : Nat
  pix : Nat → Nat → α

/-- One 8-bit RGBA sample (four channels, each expected in `0..255`). -/
structure RGBA where
  r : Nat
  g : Nat
  b : Nat
  a : Nat
deriving DecidableEq

/-- Clamp a signed convolution result into the 8-bit range, as PIL's
`clip8` does after every kernel application. -/
def clip8 (v : Int) : Nat := (min (max v 0) 255).toNat

/-- Read a grayscale grid with coordinates clamped into bounds.  In-bounds
reads are plain array reads; the clamping only totalizes the definition. -/
def gget (g : Image Nat) (y x : Nat) : Nat :=
  g.pix (min y (g.height - 1)) (min x (g.width - 1))

/-- PIL `convert("L")` luminance of one RGBA sample (`convert.c`):
`L = (R*19595 + G*38470 + B*7471 + 2^15) >> 16`.  The alpha channel is not
read. -/
def lum (p : RGBA) : Nat :=
  (p.r * 19595 + p.g * 38470 + p.b * 7471 + 32768) >>> 16

/-- `gray = img.convert("L")` (line 36 of `generate_holo.py`). -/
def to_gray (img : Image RGBA) : Image Nat :=
  ⟨img.width, img.height, fun y x => lum (img.pix y x)⟩

/-- Sum of the eight neighbours of `(y, x)` under clamped reads.  Interior
pixels (the only ones a 3×3 kernel is applied to) read exactly their eight
in-bounds neighbours. -/
def nbr8 (g : Image Nat) (y x : Nat) : Int :=
  (gget g (y-1) (x-1) : Int) + (gget g (y-1) x : Int) + (gget g (y-1) (x+1) : Int)
  + (gget g y (x-1) : Int) + (gget g y (x+1) : Int)
  + (gget g (y+1) (x-1) : Int) + (gget g (y+1) x : Int) + (gget g (y+1) (x+1) : Int)

/-- PIL `ImagingFilter` (`Filter.c`) does not convolve the outermost
`m` rows/columns (`m = 1` for a 3×3 kernel, `m = 2` for 5×5): it copies them
from the input image unchanged.  This predicate marks those pixels; it is
also true for out-of-range coordinates, which keeps the stage functions
total. -/
def is_border (g : Image Nat) (m y x : Nat) : Bool :=
  y < m || g.height ≤ y + m || x < m || g.width ≤ x + m

/-- `edges_fine = gray.filter(ImageFilter.Kernel((3,3),
[-1,-1,-1,-1,8,-1,-1,-1,-1], scale=1, offset=0))` (lines 39-43):
centre weight 8, eight neighbours -1, result clamped to `0..255`, border
pixels copied from the input. -/
def edges_fine (g : Image Nat) (y x : Nat) : Nat :=
  if is_border g 1 y x then gget g y x
  else clip8 (8 * (gget g y x : Int) - nbr8 g y x)

/-- `edges_medium = gray.filter(ImageFilter.FIND_EDGES)` (line 44).  The
builtin FIND_EDGES filter is the same 3×3 kernel (-1 everywhere, centre 8)
with scale 1 and offset 0 (`ImageFilter.py`). -/
def edges_medium (g : Image Nat) (y x : Nat) : Nat :=
  if is_border g 1 y x then gget g y x
  else clip8 (8 * (gget g y x : Int) - nbr8 g y x)

/-- Sum `f 0 + f 1 + f 2 + f 3 + f 4` over integers. -/
def sum5 (f : Nat → Int) : Int := f 0 + f 1 + f 2 + f 3 + f 4

/-- Sum of the whole 5×5 window centred at `(y, x)` under clamped reads. -/
def win25 (g : Image Nat) (y x : Nat) : Int :=
  sum5 (fun i => sum5 (fun j => (gget g (y + i - 2) (x + j - 2) : Int)))

/-- `edges_coarse = gray.filter(ImageFilter.Kernel((5,5), [... -1, 24 centre
-1 ...], scale=1, offset=0))` (lines 45-55).  Centre weight 24, the other 24
cells -1, i.e. `25·centre - (window sum)`; the outermost two rows/columns
are copied from the input. -/
def edges_coarse (g : Image Nat) (y x : Nat) : Nat :=
  if is_border g 2 y x then gget g y x
  else clip8 (25 * (gget g y x : Int) - win25 g y x)

/-- `edges_offset = gray.filter(ImageFilter.CONTOUR)` (line 92).  The
builtin CONTOUR filter is the 3×3 kernel (-1 everywhere, centre 8) with
scale 1 and offset 255 (`ImageFilter.py`), so flat regions map to 255. -/
def edges_offset (g : Image Nat) (y x : Nat) : Nat :=
  if is_border g 1 y x then gget g y x
  else clip8 (255 + 8 * (gget g y x : Int) - nbr8 g y x)

/-- The exact-rational reading of lines 62-65, as the spec states them:
`combined = np.clip(arr_fine*0.5 + arr_medium*0.3 + arr_coarse*0.2, 0, 255)`
then `np.clip(combined * 2.5, 0, 255).astype(np.uint8)`, with the scalars
as exact rationals and the `uint8` cast as the floor of these nonnegative
values.  The program evaluates the formula in float32
(`combined_f32` below), which at some inputs lands one below this exact
reading; `combined_boost_ref_eq` gives the closed form of this reference. -/
def combined_boost_ref (f m c : Nat) : Nat :=
  ⌊min (max (min (max ((f : ℚ) * 0.5 + (m : ℚ) * 0.3 + (c : ℚ) * 0.2) 0) 255
      * 2.5) 0) 255⌋.toNat

/-- `⌊log2 n⌋` for `1 ≤ n < 2^fuel`, by structural recursion on the fuel
(so that it evaluates by kernel reduction; the library `Nat.log2` is
defined by well-founded recursion and does not). -/
def log2p (fuel n : Nat) : Nat :=
  match fuel with
  | 0 => 0
  | fuel + 1 => if n < 2 then 0 else log2p fuel (n / 2) + 1

/-- Round-to-nearest-even of `n / 2^s` (the IEEE-754 tie-breaking rule). -/
def rne_div_pow (n s : Nat) : Nat :=
  if s = 0 then n
  else
    let q := n >>> s
    let r := n - (q <<< s)
    let half := 1 <<< (s - 1)
    if half < r then q + 1
    else if r < half then q
    else if q % 2 = 1 then q + 1 else q

/-- Rounding of the exact value `n / 2^k` to IEEE-754 binary32 (24-bit
mantissa, round to nearest, ties to even), returned as a numerator at the
fixed scale `2^28`.  Exact whenever the value is 0 or at least `2^-5`,
which covers every value lines 62-65 produce (no subnormals, no overflow,
no negatives there). -/
def round32at (n k : Nat) : Nat :=
  if n = 0 then 0
  else
    let L := log2p 128 n
    let M := if L ≤ 23 then n <<< (23 - L) else rne_div_pow n (L - 23)
    if k ≤ L + 5 then M <<< (L + 5 - k) else M >>> (k - (L + 5))

/-- One float32 multiplication of two scale-`2^28` values: the exact
product sits at scale `2^56` and is rounded back to binary32. -/
def mul32 (a b : Nat) : Nat := round32at (a * b) 56

/-- One float32 addition of two scale-`2^28` values: the exact sum is
rounded back to binary32. -/
def add32 (a b : Nat) : Nat := round32at (a + b) 28

/-- `float32 0.5` at scale `2^28` (0.5 is exact in binary32). -/
def f32_half : Nat := 1 <<< 27

/-- `float32 0.3` at scale `2^28`: binary32 rounds 0.3 to
`10066330 / 2^25`, i.e. `10066330 · 8` at this scale. -/
def f32_p3 : Nat := 80530640

/-- `float32 0.2` at scale `2^28`: binary32 rounds 0.2 to
`13421773 / 2^26`, i.e. `13421773 · 4` at this scale. -/
def f32_p2 : Nat := 53687092

/-- `float32 2.5` at scale `2^28` (2.5 is exact in binary32). -/
def f32_2p5 : Nat := 5 <<< 27

/-- Lines 62-65 in numpy's actual arithmetic: the three uint8 edge values
are exact in float32, each product with the float32-cast scalar and each
addition is rounded per operation (left-associated
`f*0.5 + m*0.3 + c*0.2`), `np.clip(…, 0, 255)` is exact on float32, the
`*2.5` product is rounded, and `astype(np.uint8)` truncates toward zero
(`>>> 28` on the nonnegative scale-`2^28` fixed-point value).  This
tracks the program bit for bit; it can land one below the exact-rational
reading `combined_boost_ref` (e.g. at `f = m = 1, c = 82`). -/
def combined_f32 (f m c : Nat) : Nat :=
  let t1 := mul32 (f <<< 28) f32_half
  let t2 := mul32 (m <<< 28) f32_p3
  let t3 := add32 t1 t2
  let t4 := mul32 (c <<< 28) f32_p2
  let t5 := add32 t3 t4
  let cl := min (max t5 0) (255 <<< 28)
  let t6 := mul32 cl f32_2p5
  min (max t6 0) (255 <<< 28) >>> 28

/-- `combined = np.clip(combined * 2.5, 0, 255).astype(np.uint8)` after
`combined = np.clip(arr_fine*0.5 + arr_medium*0.3 + arr_coarse*0.2, 0,
255)` (lines 62-65), in the program's per-operation float32 arithmetic. -/
def combined_boost (g : Image Nat) (y x : Nat) : Nat :=
  combined_f32 (edges_fine g y x) (edges_medium g y x) (edges_coarse g y x)

/-- `combined[combined < 30] = 0` (line 68): the noise floor. -/
def combined (g : Image Nat) (y x : Nat) : Nat :=
  if combined_boost g y x < 30 then 0 else combined_boost g y x

/-- `edge_mask = combined > 0` (line 75). -/
def edge_mask (g : Image Nat) (y x : Nat) : Prop :=
  0 < combined g y x

instance edge_mask_dec (g : Image Nat) (y x : Nat) : Decidable (edge_mask g y x) :=
  inferInstanceAs (Decidable (0 < combined g y x))

/-- `arr_offset = np.clip(arr_offset * 1.5, 0, 255).astype(np.uint8)`
(line 94).  On 8-bit inputs `n * 1.5` is exact in float32, so the cast
yields `min (3n/2) 255` in natural-number arithmetic. -/
def arr_offset (g : Image Nat) (y x : Nat) : Nat :=
  min (edges_offset g y x * 3 / 2) 255

/-- `offset_mask = (arr_offset > 40) & ~edge_mask` (line 95). -/
def offset_mask (g : Image Nat) (y x : Nat) : Prop :=
  40 < arr_offset g y x ∧ ¬ edge_mask g y x

instance offset_mask_dec (g : Image Nat) (y x : Nat) : Decidable (offset_mask g y x) :=
  inferInstanceAs (Decidable (_ ∧ _))

/-- `faint_mask = (orig_gray > 30) & ~edge_mask & ~offset_mask` (line 99):
`orig_gray` is the luminance grid itself (`np.array(gray)`). -/
def faint_mask (g : Image Nat) (y x : Nat) : Prop :=
  30 < gget g y x ∧ ¬ edge_mask g y x ∧ ¬ offset_mask g y x

instance faint_mask_dec (g : Image Nat) (y x : Nat) : Decidable (faint_mask g y x) :=
  inferInstanceAs (Decidable (_ ∧ _))

/-- One pixel of the pre-glow buffer `result` (lines 71-103): created as
`np.zeros((h, w, 4))`, then the three layers are painted in order.  The
three masks are pairwise disjoint, so the layered writes translate to a
three-way case split.  The per-channel scalings are the `uint8` casts of
`combined*0.9`, `arr_offset*0.4` (clipped at 180) and `orig_gray*0.25 /
*0.22 / *0.12` (clipped at 80 / 70 / 40), all exact in natural-number
arithmetic for 8-bit inputs. -/
def result_pix (g : Image Nat) (y x : Nat) : RGBA :=
  if edge_mask g y x then
    ⟨0, 255, 220, min (combined g y x * 9 / 10) 255⟩
  else if offset_mask g y x then
    ⟨147, 51, 234, min (arr_offset g y x * 2 / 5) 180⟩
  else if faint_mask g y x then
    ⟨0, min (gget g y x / 4) 80, min (gget g y x * 11 / 50) 70,
      min (gget g y x * 3 / 25) 40⟩
  else ⟨0, 0, 0, 0⟩

/-- Replicate-clamped read of the pre-glow buffer, used by the blur. -/
def result_get (g : Image Nat) (y x : Nat) : RGBA :=
  result_pix g (min y (g.height - 1)) (min x (g.width - 1))

/-- Binomial weights `1,4,6,4,1` of the radius-2 blur kernel model. -/
def gw : Nat → Nat
  | 0 => 1
  | 1 => 4
  | 2 => 6
  | 3 => 4
  | _ => 1

/-- Sum `f 0 + f 1 + f 2 + f 3 + f 4` over naturals. -/
def nsum5 (f : Nat → Nat) : Nat := f 0 + f 1 + f 2 + f 3 + f 4

/-- One channel of `glow = out_img.filter(ImageFilter.GaussianBlur(radius=2))`
(line 104).  The library blur is a floating-point box-filter cascade with no
exact integer translation; it is modelled by the normalized radius-2
binomial kernel `(1,4,6,4,1) ⊗ (1,4,6,4,1) / 256`, applied to each of the
four channels independently (straight alpha, as the library does), with
replicate-clamped borders and rounding to nearest.  The model agrees with
the library blur in support radius, normalization (constants are preserved)
and border policy. -/
def blur_chan (g : Image Nat) (f : RGBA → Nat) (y x : Nat) : Nat :=
  (nsum5 (fun i => nsum5 (fun j =>
      gw i * gw j * f (result_get g (y + i - 2) (x + j - 2)))) + 128) / 256

/-- One pixel of the attenuated glow buffer (lines 104-107): the blurred
RGBA buffer with its alpha channel rescaled by
`np.clip(alpha * 0.5, 0, 128).astype(np.uint8)`, i.e. `min (alpha/2) 128`. -/
def glow_pix (g : Image Nat) (y x : Nat) : RGBA :=
  ⟨blur_chan g RGBA.r y x, blur_chan g RGBA.g y x, blur_chan g RGBA.b y x,
    min (blur_chan g RGBA.a y x / 2) 128⟩

/-- Pillow's `SHIFTFORDIV255` macro (`AlphaComposite.c`):
`((v >> 8) + v) >> 8`, an exact round-to-nearest division by 255 when
applied to `x + 0x80` for `x ≤ 255·255`. -/
def shift_for_div255 (v : Nat) : Nat := ((v >>> 8) + v) >>> 8

/-- One pixel of `Image.alpha_composite(dst, src)` (`AlphaComposite.c`,
`PRECISION_BITS = 7`): `src` is composited over `dst` with straight-alpha
"over" semantics in fixed-point integer arithmetic.  If the foreground is
fully transparent the background pixel is copied verbatim. -/
def composite_pix (dst src : RGBA) : RGBA :=
  if src.a = 0 then dst
  else
    let blend := dst.a * (255 - src.a)
    let outa255 := src.a * 255 + blend
    let coef1 := src.a * 255 * 255 * 128 / outa255
    let coef2 := 255 * 128 - coef1
    ⟨shift_for_div255 (src.r * coef1 + dst.r * coef2 + 16384) >>> 7,
      shift_for_div255 (src.g * coef1 + dst.g * coef2 + 16384) >>> 7,
      shift_for_div255 (src.b * coef1 + dst.b * coef2 + 16384) >>> 7,
      shift_for_div255 (outa255 + 128)⟩

/-- The whole `create_wireframe` pipeline (lines 31-110) on an in-memory
RGBA image: grayscale reduction, multi-scale edge detection, the three
disjoint colour layers, and the final
`Image.alpha_composite(glow_img, out_img)` with the sharp pre-glow buffer
as foreground over the attenuated glow as background.  The returned image
is the buffer persisted by `final.save(dst_path, "PNG")` (PNG is lossless,
so the saved file holds exactly these pixels). -/
def create_wireframe (img : Image RGBA) : Image RGBA :=
  let g := to_gray img
  ⟨img.width, img.height, fun y x =>
    composite_pix (glow_pix g y x) (result_pix g y x)⟩

/-- The spec's "standard over" rule on the alpha channel, written from the
words of §4.4: `α_out = α_fg + α_bg · (1 - α_fg)` in `0..1` scale, i.e.
`(fa·255 + ba·(255 - fa)) / 255` rounded to nearest in 8-bit scale.  Stated
independently of the code, to be compared with `composite_pix`. -/
def over_alpha_spec (fa ba : Nat) : Nat :=
  (fa * 255 + ba * (255 - fa) + 127) / 255

/-- A 3×3 all-black, fully-opaque input image (uniform luminance 0). -/
def black3 : Image RGBA := ⟨3, 3, fun _ _ => ⟨0, 0, 0, 255⟩⟩

/-- A 5×5 fully-opaque input: luminance 31 at the centre, 60 elsewhere.
Its centre pixel lands in the faint layer (no edge, contour 23, luminance
31 > 30) while the surrounding pixels land in the edge layer. -/
def img5 : Image RGBA :=
  ⟨5, 5, fun y x =>
    if y = 2 ∧ x = 2 then ⟨31, 31, 31, 255⟩ else ⟨60, 60, 60, 255⟩⟩

/-- A 3×3 fully-opaque input: luminance 81 at the corner (0,0), 82
elsewhere.  At pixel (1,1) the fine and medium Laplacians give 1 and the
coarse value is the copied input 82 (the whole 3×3 image is border for the
5×5 kernel), a pair where the program's float32 `combined` is one below
the exact-rational formula. -/
def img3c4 : Image RGBA :=
  ⟨3, 3, fun y x =>
    if y = 0 ∧ x = 0 then ⟨81, 81, 81, 255⟩ else ⟨82, 82, 82, 255⟩⟩

/-- Closed form of the exact-rational reference: on 8-bit inputs the
spec's two clip/scale steps followed by the floor equal
`min ((5f + 3m + 2c) / 4) 255` in natural-number arithmetic. -/
theorem combined_boost_ref_eq (f m c : Nat) (hf : f ≤ 255) (hm : m ≤ 255) (hc : c ≤ 255) :
    combined_boost_ref f m c = min ((5 * f + 3 * m + 2 * c) / 4) 255 := by
  unfold combined_boost_ref
  have hf' : (f : ℚ) ≤ 255 := by exact_mod_cast hf
  have hm' : (m : ℚ) ≤ 255 := by exact_mod_cast hm
  have hc' : (c : ℚ) ≤ 255 := by exact_mod_cast hc
  have hs0 : (0 : ℚ) ≤ (f : ℚ) * 0.5 + (m : ℚ) * 0.3 + (c : ℚ) * 0.2 := by positivity
  have hs255 : (f : ℚ) * 0.5 + (m : ℚ) * 0.3 + (c : ℚ) * 0.2 ≤ 255 := by
    norm_num
    linarith
  rw [max_eq_left hs0, min_eq_left hs255]
  have hq : ((f : ℚ) * 0.5 + (m : ℚ) * 0.3 + (c : ℚ) * 0.2) * 2.5
      = ((5 * f + 3 * m + 2 * c : ℕ) : ℚ) / 4 := by
    push_cast
    norm_num
    ring
  rw [hq, max_eq_left (by positivity)]
  have hfl : (⌊((5 * f + 3 * m + 2 * c : ℕ) : ℚ) / 4⌋ : Int)
      = ((5 * f + 3 * m + 2 * c : ℕ) : Int) / 4 := by
    rw [show (((5 * f + 3 * m + 2 * c : ℕ) : ℚ) / 4)
        = (((5 * f + 3 * m + 2 * c : ℕ) : ℤ) : ℚ) / ((4 : ℕ) : ℚ) by push_cast; ring]
    exact Rat.floor_intCast_div_natCast _ _
  rcases le_total (((5 * f + 3 * m + 2 * c : ℕ) : ℚ) / 4) 255 with h | h
  · rw [min_eq_left h, hfl]
    have hn : 5 * f + 3 * m + 2 * c ≤ 1020 := by
      have : ((5 * f + 3 * m + 2 * c : ℕ) : ℚ) ≤ 1020 := by
        linarith [(div_le_iff₀ (by norm_num : (0 : ℚ) < 4)).mp h]
      exact_mod_cast this
    have hdiv : (((5 * f + 3 * m + 2 * c : ℕ) : Int) / 4)
        = (((5 * f + 3 * m + 2 * c) / 4 : ℕ) : Int) := by
      push_cast [Int.ofNat_tdiv]
      ring_nf
    rw [hdiv, Int.toNat_natCast]
    omega
  · rw [min_eq_right h]
    have hn : 1020 ≤ 5 * f + 3 * m + 2 * c := by
      have : (1020 : ℚ) ≤ ((5 * f + 3 * m + 2 * c : ℕ) : ℚ) := by
        linarith [(le_div_iff₀ (by norm_num : (0 : ℚ) < 4)).mp h]
      exact_mod_cast this
    norm_num
    omega

/-- The pre-glow buffer's alpha channel is always a byte. -/
theorem result_a_le (g : Image Nat) (y x : Nat) : (result_pix g y x).a ≤ 255 := by
  unfold result_pix
  split
  · exact min_le_right _ _
  · split
    · exact le_trans (min_le_right _ _) (by norm_num)
    · split
      · exact le_trans (min_le_right _ _) (by norm_num)
      · exact Nat.zero_le _

/-- `shift_for_div255` in division form. -/
theorem shift_for_div255_eq (v : Nat) :
    shift_for_div255 v = (v / 256 + v) / 256 := by
  unfold shift_for_div255
  simp [Nat.shiftRight_eq_div_pow]

/-- The foreground's alpha never exceeds the composited alpha. -/
theorem composite_a_ge (dst src : RGBA) (hsrc : src.a ≤ 255) :
    src.a ≤ (composite_pix dst src).a := by
  unfold composite_pix
  split
  · next h => simp [h]
  · show src.a ≤ shift_for_div255 (src.a * 255 + dst.a * (255 - src.a) + 128)
    rw [shift_for_div255_eq]
    generalize dst.a * (255 - src.a) = b
    omega

/-- C1: intended behaviour, refuted by the code.  For the 3×3 all-black,
fully-opaque input the centre pixel is claimed fully transparent, but the
CONTOUR filter maps flat regions to 255 (offset 255), so the centre lands
in the violet offset layer with pre-glow alpha 102, and the persisted pixel
has alpha 106 ≠ 0. -/
theorem c1_blank_input_painted_violet :
    offset_mask (to_gray black3) 1 1
    ∧ result_pix (to_gray black3) 1 1 = ⟨147, 51, 234, 102⟩
    ∧ ((create_wireframe black3).pix 1 1).a = 106 := by
  decide

/-- C2 counterexample: at the corner of the 3×3 all-black input no mask
holds, yet the persisted alpha is 3 (glow bleed), not 0. -/
theorem c2_glow_bleeds_outside_masks :
    ¬ edge_mask (to_gray black3) 0 0
    ∧ ¬ offset_mask (to_gray black3) 0 0
    ∧ ¬ faint_mask (to_gray black3) 0 0
    ∧ ((create_wireframe black3).pix 0 0).a ≠ 0 := by
  decide

/-- C2 amended: a pixel outside all three layer masks is fully transparent
in the PRE-GLOW buffer (the persisted output may add glow alpha there). -/
theorem c2_preglow_transparent_outside_masks (img : Image RGBA) (y x : Nat)
    (he : ¬ edge_mask (to_gray img) y x)
    (ho : ¬ offset_mask (to_gray img) y x)
    (hf : ¬ faint_mask (to_gray img) y x) :
    result_pix (to_gray img) y x = ⟨0, 0, 0, 0⟩ := by
  unfold result_pix
  rw [if_neg he, if_neg ho, if_neg hf]

/-- Witness for C2's amended theorem at a concrete pixel. -/
theorem c2_preglow_transparent_outside_masks_witness :
    result_pix (to_gray black3) 0 0 = ⟨0, 0, 0, 0⟩ :=
  c2_preglow_transparent_outside_masks black3 0 0 (by decide) (by decide) (by decide)

/-- C3: the three layer masks are pairwise disjoint at every pixel, for
every input image. -/
theorem c3_masks_pairwise_disjoint (img : Image RGBA) (y x : Nat) :
    ¬ (edge_mask (to_gray img) y x ∧ offset_mask (to_gray img) y x)
    ∧ ¬ (edge_mask (to_gray img) y x ∧ faint_mask (to_gray img) y x)
    ∧ ¬ (offset_mask (to_gray img) y x ∧ faint_mask (to_gray img) y x) :=
  ⟨fun h => h.2.2 h.1, fun h => h.2.2.1 h.1, fun h => h.2.2.2 h.1⟩

/-- The float32 combined value is always a byte (the final clip caps it at
255 before the `uint8` cast). -/
theorem min_shiftr28_le (n : Nat) : min n (255 <<< 28) >>> 28 ≤ 255 := by
  have e : (255 : Nat) <<< 28 = 68451041280 := by norm_num [Nat.shiftLeft_eq]
  rw [Nat.shiftRight_eq_div_pow, e]
  have h : min n 68451041280 ≤ 68451041280 := min_le_right _ _
  have e2 : (2 : Nat) ^ 28 = 268435456 := by norm_num
  rw [e2]
  omega

theorem combined_f32_le (f m c : Nat) : combined_f32 f m c ≤ 255 := by
  unfold combined_f32
  exact min_shiftr28_le _

/-- C4 counterexample: at pixel (1,1) of `img3c4` the fine/medium/coarse
edge values are 1/1/82; there the program's float32 evaluation of the
combined formula gives 42, one below the 43 the claim's exact-arithmetic
formula yields (float32 0.3 and 0.2 are not 3/10 and 1/5, and the rounded
`17.1999996... × 2.5` falls just under 43 before truncation). -/
theorem c4_float32_combined_below_formula :
    edges_fine (to_gray img3c4) 1 1 = 1
    ∧ edges_medium (to_gray img3c4) 1 1 = 1
    ∧ edges_coarse (to_gray img3c4) 1 1 = 82
    ∧ combined_boost (to_gray img3c4) 1 1 = 42
    ∧ combined_boost_ref 1 1 82 = 43 := by
  refine ⟨by decide, by decide, by decide, by decide, ?_⟩
  rw [combined_boost_ref_eq 1 1 82 (by norm_num) (by norm_num) (by norm_num)]
  decide

/-- C4 amended: the combined grid is the per-operation float32 evaluation
of `clip(0.5·fine + 0.3·medium + 0.2·coarse, 0, 255)`, then
`clip(· × 2.5, 0, 255)` truncated to `uint8` — which can land one below
the exact-arithmetic formula — and after `combined[combined < 30] = 0`
every value is either 0 or in `[30, 255]`. -/
theorem c4_combined_noise_floor (img : Image RGBA) (y x : Nat) :
    combined_boost (to_gray img) y x
      = combined_f32 (edges_fine (to_gray img) y x)
          (edges_medium (to_gray img) y x) (edges_coarse (to_gray img) y x)
    ∧ (combined (to_gray img) y x = 0
      ∨ (30 ≤ combined (to_gray img) y x ∧ combined (to_gray img) y x ≤ 255)) := by
  refine ⟨rfl, ?_⟩
  unfold combined
  split
  · exact Or.inl rfl
  · next hlt => exact Or.inr ⟨by omega, combined_f32_le _ _ _⟩

/-- C5 counterexample: the centre of `img5` is a faint-layer pixel (pre-glow
alpha 3), yet its alpha in the persisted output is 43 > 40: the per-layer
band does not survive the glow composite. -/
theorem c5_faint_band_broken_after_glow :
    faint_mask (to_gray img5) 2 2
    ∧ (result_pix (to_gray img5) 2 2).a ≤ 40
    ∧ 40 < ((create_wireframe img5).pix 2 2).a := by
  decide

/-- C5 amended: the documented per-layer bands hold in the PRE-GLOW buffer
(faint alpha ≤ 40, faint G ≤ 80, faint B ≤ 70, offset alpha ≤ 180), and the
attenuated glow buffer's alpha never exceeds 128; in the persisted output a
faint pixel's alpha can exceed its band (see the counterexample). -/
theorem c5_layer_bands_preglow (img : Image RGBA) (y x : Nat) :
    (faint_mask (to_gray img) y x →
      (result_pix (to_gray img) y x).a ≤ 40
      ∧ (result_pix (to_gray img) y x).g ≤ 80
      ∧ (result_pix (to_gray img) y x).b ≤ 70)
    ∧ (offset_mask (to_gray img) y x → (result_pix (to_gray img) y x).a ≤ 180)
    ∧ (glow_pix (to_gray img) y x).a ≤ 128 := by
  refine ⟨?_, ?_, ?_⟩
  · intro hfm
    unfold result_pix
    rw [if_neg hfm.2.1, if_neg hfm.2.2, if_pos hfm]
    exact ⟨min_le_right _ _, min_le_right _ _, min_le_right _ _⟩
  · intro hom
    unfold result_pix
    rw [if_neg hom.2, if_pos hom]
    exact min_le_right _ _
  · exact min_le_right _ _

/-- Witness for C5's amended theorem at concrete faint and offset pixels. -/
theorem c5_layer_bands_preglow_witness :
    (result_pix (to_gray img5) 2 2).a ≤ 40
    ∧ (result_pix (to_gray black3) 1 1).a ≤ 180
    ∧ (glow_pix (to_gray black3) 0 0).a ≤ 128 :=
  ⟨((c5_layer_bands_preglow img5 2 2).1 (by decide)).1,
    (c5_layer_bands_preglow black3 1 1).2.1 (by decide),
    (c5_layer_bands_preglow black3 0 0).2.2⟩

/-- C6: the glow compositor blurs the full pre-glow RGBA buffer, attenuates
the blurred alpha by half clamped at 128, and composites the sharp pre-glow
image as foreground over the glow as background; on the alpha channel the
library's fixed-point compositing agrees exactly with the spec's standard
straight-alpha "over" rule `over_alpha_spec`. -/
theorem c6_glow_compositor_over :
    (∀ (img : Image RGBA) (y x : Nat),
      (create_wireframe img).pix y x
        = composite_pix (glow_pix (to_gray img) y x) (result_pix (to_gray img) y x))
    ∧ (∀ (img : Image RGBA) (y x : Nat),
      glow_pix (to_gray img) y x
        = ⟨blur_chan (to_gray img) RGBA.r y x, blur_chan (to_gray img) RGBA.g y x,
            blur_chan (to_gray img) RGBA.b y x,
            min (blur_chan (to_gray img) RGBA.a y x / 2) 128⟩)
    ∧ (∀ dst src : RGBA, dst.a ≤ 255 → src.a ≤ 255 →
      (composite_pix dst src).a = over_alpha_spec src.a dst.a) := by
  refine ⟨fun img y x => rfl, fun img y x => rfl, fun dst src hdst hsrc => ?_⟩
  unfold composite_pix over_alpha_spec
  split
  · next h =>
    rw [h]
    omega
  · show shift_for_div255 (src.a * 255 + dst.a * (255 - src.a) + 128)
      = (src.a * 255 + dst.a * (255 - src.a) + 127) / 255
    rw [shift_for_div255_eq]
    have hbb : dst.a * (255 - src.a) ≤ 255 * (255 - src.a) :=
      Nat.mul_le_mul_right _ hdst
    generalize hb : dst.a * (255 - src.a) = b at hbb ⊢
    omega

/-- Witness for C6's over-compositing alpha rule at concrete pixels. -/
theorem c6_glow_compositor_over_witness :
    (composite_pix ⟨0, 255, 220, 135⟩ ⟨147, 51, 234, 102⟩).a
      = over_alpha_spec 102 135 :=
  c6_glow_compositor_over.2.2 ⟨0, 255, 220, 135⟩ ⟨147, 51, 234, 102⟩
    (by decide) (by decide)

/-- C7: the output image has the input's width and height (its pixels are
`RGBA` records, i.e. four channels). -/
theorem c7_dimensions_preserved (img : Image RGBA) :
    (create_wireframe img).width = img.width
    ∧ (create_wireframe img).height = img.height :=
  ⟨rfl, rfl⟩

/-- C8: the pipeline is a pure function of the input image: equal inputs
give identical output buffers. -/
theorem c8_deterministic (img1 img2 : Image RGBA) (h : img1 = img2) :
    create_wireframe img1 = create_wireframe img2 :=
  congrArg create_wireframe h

/-- Witness for C8 at a concrete image. -/
theorem c8_deterministic_witness :
    create_wireframe black3 = create_wireframe black3 :=
  c8_deterministic black3 black3 rfl

/-- C10: the glow composite never decreases opacity: at every pixel the
persisted alpha is at least the sharp pre-glow alpha. -/
theorem c10_glow_never_decreases_alpha (img : Image RGBA) (y x : Nat) :
    (result_pix (to_gray img) y x).a ≤ ((create_wireframe img).pix y x).a :=
  composite_a_ge (glow_pix (to_gray img) y x) (result_pix (to_gray img) y x)
    (result_a_le _ y x)

/-- Clamped reads agree on all coordinates when two grids of equal,
positive dimensions agree in bounds. -/
theorem gget_congr (g1 g2 : Image Nat) (hw : g1.width = g2.width)
    (hh : g1.height = g2.height)
    (hp : ∀ y x, y < g1.height → x < g1.width → g1.pix y x = g2.pix y x)
    (hh0 : 0 < g1.height) (hw0 : 0 < g1.width) :
    ∀ y x, gget g1 y x = gget g2 y x := by
  intro y x
  unfold gget
  rw [← hw, ← hh]
  exact hp _ _ (by omega) (by omega)

/-- Every stage of the pipeline reads the grayscale grid only through
clamped reads and the two dimensions, so pixelwise agreement of the inputs
propagates to the final composite. -/
theorem pipeline_congr (g1 g2 : Image Nat) (hw : g1.width = g2.width)
    (hh : g1.height = g2.height) (hp : ∀ y x, gget g1 y x = gget g2 y x) :
    ∀ y x, composite_pix (glow_pix g1 y x) (result_pix g1 y x)
      = composite_pix (glow_pix g2 y x) (result_pix g2 y x) := by
  have hb : ∀ m y x, is_border g1 m y x = is_border g2 m y x := by
    intro m y x
    unfold is_border
    rw [hw, hh]
  have hn : ∀ y x, nbr8 g1 y x = nbr8 g2 y x := by
    intro y x
    unfold nbr8
    simp only [hp]
  have h25 : ∀ y x, win25 g1 y x = win25 g2 y x := by
    intro y x
    unfold win25 sum5
    simp only [hp]
  have hf : ∀ y x, edges_fine g1 y x = edges_fine g2 y x := by
    intro y x
    unfold edges_fine
    simp only [hb, hn, hp]
  have hm : ∀ y x, edges_medium g1 y x = edges_medium g2 y x := by
    intro y x
    unfold edges_medium
    simp only [hb, hn, hp]
  have hc : ∀ y x, edges_coarse g1 y x = edges_coarse g2 y x := by
    intro y x
    unfold edges_coarse
    simp only [hb, h25, hp]
  have ho : ∀ y x, edges_offset g1 y x = edges_offset g2 y x := by
    intro y x
    unfold edges_offset
    simp only [hb, hn, hp]
  have hcb : ∀ y x, combined_boost g1 y x = combined_boost g2 y x := by
    intro y x
    unfold combined_boost
    simp only [hf, hm, hc]
  have hcd : ∀ y x, combined g1 y x = combined g2 y x := by
    intro y x
    unfold combined
    simp only [hcb]
  have hem : ∀ y x, edge_mask g1 y x = edge_mask g2 y x := by
    intro y x
    unfold edge_mask
    rw [hcd]
  have hao : ∀ y x, arr_offset g1 y x = arr_offset g2 y x := by
    intro y x
    unfold arr_offset
    rw [ho]
  have hom : ∀ y x, offset_mask g1 y x = offset_mask g2 y x := by
    intro y x
    unfold offset_mask
    rw [hao, hem]
  have hfm : ∀ y x, faint_mask g1 y x = faint_mask g2 y x := by
    intro y x
    unfold faint_mask
    rw [hp, hem, hom]
  have hres : ∀ y x, result_pix g1 y x = result_pix g2 y x := by
    intro y x
    unfold result_pix
    simp only [hem, hom, hfm, hcd, hao, hp]
  have hrg : ∀ y x, result_get g1 y x = result_get g2 y x := by
    intro y x
    unfold result_get
    rw [hw, hh]
    exact hres _ _
  have hbc : ∀ f y x, blur_chan g1 f y x = blur_chan g2 f y x := by
    intro f y x
    unfold blur_chan nsum5
    simp only [hrg]
  have hgl : ∀ y x, glow_pix g1 y x = glow_pix g2 y x := by
    intro y x
    unfold glow_pix
    simp only [hbc]
  intro y x
  rw [hgl, hres]

/-- C9: the output does not depend on the input's alpha channel: two inputs
of equal dimensions that agree on R, G and B at every in-bounds pixel
produce identical outputs at every in-bounds pixel (the grayscale reduction
reads only R, G, B, and every later stage reads only the grayscale grid). -/
theorem c9_independent_of_input_alpha (img1 img2 : Image RGBA)
    (hw : img1.width = img2.width) (hh : img1.height = img2.height)
    (hrgb : ∀ y, y < img1.height → ∀ x, x < img1.width →
      (img1.pix y x).r = (img2.pix y x).r ∧ (img1.pix y x).g = (img2.pix y x).g
      ∧ (img1.pix y x).b = (img2.pix y x).b) :
    ∀ y, y < img1.height → ∀ x, x < img1.width →
      (create_wireframe img1).pix y x = (create_wireframe img2).pix y x := by
  intro y hy x hx
  have hh0 : 0 < img1.height := by omega
  have hw0 : 0 < img1.width := by omega
  have hgp : ∀ y x, y < (to_gray img1).height → x < (to_gray img1).width →
      (to_gray img1).pix y x = (to_gray img2).pix y x := by
    intro y x hy hx
    show lum (img1.pix y x) = lum (img2.pix y x)
    obtain ⟨h1, h2, h3⟩ := hrgb y hy x hx
    unfold lum
    rw [h1, h2, h3]
  have hget := gget_congr (to_gray img1) (to_gray img2) hw hh hgp hh0 hw0
  exact pipeline_congr (to_gray img1) (to_gray img2) hw hh hget y x

/-- Witness for C9: two 1×1 inputs differing only in alpha give the same
output pixel. -/
theorem c9_independent_of_input_alpha_witness :
    (create_wireframe ⟨1, 1, fun _ _ => ⟨10, 20, 30, 255⟩⟩).pix 0 0
      = (create_wireframe ⟨1, 1, fun _ _ => ⟨10, 20, 30, 0⟩⟩).pix 0 0 :=
  c9_independent_of_input_alpha _ _ rfl rfl
    (fun _ _ _ _ => ⟨rfl, rfl, rfl⟩) 0 Nat.one_pos 0 Nat.one_pos

end GenerateHolo

